import Mathlib

/-!
Verification development for the PDF form-fill repository.

The repository has two fill pipelines:

* `pdf_form_fill_workflow.py` — generates a blank multi-section form
  (`generate_blank_form`), recording for every field key an `{x, y, page}`
  position, then overlays data values at the recorded positions
  (`fill_form`) and verifies them by substring search over extracted text.

* `fill_roofing_permit.py` — fills a pre-existing AcroForm document:
  widgets are visited in page order then on-page discovery order; text
  widgets (type 7) receive string values, checkboxes (type 2) are set to
  "Yes" for boolean-true record entries, radio widgets (type 5) are
  resolved per group via `RADIO_SELECTIONS` with a per-group occurrence
  counter; `verify_filled` re-reads widget values and checks a fixed list
  of critical keys.

Python dicts are embedded as association lists in insertion order
(`dlookup` / `dictSet` mirror `d.get(k)` / `d[k] = v`), machine values as
`Nat`/`Int`, and Python's bool-or-string dict values as `PyVal`.
-/

set_option autoImplicit false

namespace PdfFormFill

/-- First-match lookup in an association list; mirrors Python `d.get(k)`. -/
def dlookup {α : Type} : List (String × α) → String → Option α
  | [], _ => none
  | (k', v) :: rest, k => if k' = k then some v else dlookup rest k

/-- Update-or-append in an association list; mirrors Python `d[k] = v`
(insertion order preserved, existing key overwritten in place). -/
def dictSet {α : Type} : List (String × α) → String → α → List (String × α)
  | [], k, v => [(k, v)]
  | (k', v') :: rest, k, v =>
      if k' = k then (k, v) :: rest else (k', v') :: dictSet rest k v

/-- Keys of an association list, in order. -/
def keysOf {α : Type} (m : List (String × α)) : List String := m.map Prod.fst

/-- Dict values of Python records in this repository: booleans or strings. -/
inductive PyVal : Type
  | pyBool (b : Bool)
  | pyStr (s : String)
deriving DecidableEq, Repr

/-- An AcroForm widget as the fill loop sees it: `field_name`,
`field_type` (7 text, 2 checkbox, 5 radio, 1 push button) and
`field_value`. -/
structure Widget : Type where
  name : String
  ftype : Nat
  value : Option String
deriving DecidableEq, Repr

/-- Mutable state of `fill_permit`'s loop: the four counters/lists and the
per-group radio occurrence dict `radio_seen`. -/
structure FillState : Type where
  text_filled : Nat
  checkboxes_checked : Nat
  radios_selected : Nat
  skipped : List String
  radio_seen : List (String × Nat)
deriving DecidableEq, Repr

/-- Initial state of `fill_permit`. -/
def initFill : FillState := ⟨0, 0, 0, [], []⟩

/-- The radio selection policy of `fill_roofing_permit.py`
(`RADIO_SELECTIONS`): group name to 0-based target ordinal. -/
def RADIO_SELECTIONS : List (String × Int) :=
  [("Group6", 0), ("Group7", 0), ("Group8", 1),
   ("Group9", 1), ("Group10", 1), ("Group11", 0)]

/-- One iteration of `fill_permit`'s widget loop
(`fill_roofing_permit.py`, lines 259-290), returning the updated state and
the widget as it stands afterward (its value reflects any write). -/
def fillStep (sel : List (String × Int)) (data : List (String × PyVal))
    (st : FillState) (w : Widget) : FillState × Widget :=
  if w.ftype = 7 then
    match dlookup data w.name with
    | some (PyVal.pyStr s) =>
        ({ st with text_filled := st.text_filled + 1 }, { w with value := some s })
    | _ =>
        ({ st with skipped := st.skipped ++ ["text:" ++ w.name] }, w)
  else if w.ftype = 2 then
    if dlookup data w.name = some (PyVal.pyBool true) then
      ({ st with checkboxes_checked := st.checkboxes_checked + 1 },
       { w with value := some "Yes" })
    else (st, w)
  else if w.ftype = 5 then
    let idx := (dlookup st.radio_seen w.name).getD 0
    let st1 := { st with radio_seen := dictSet st.radio_seen w.name (idx + 1) }
    match dlookup sel w.name with
    | some t =>
        if (idx : Int) = t then
          ({ st1 with radios_selected := st1.radios_selected + 1 },
           { w with value := some "Yes" })
        else (st1, w)
    | none => (st1, w)
  else (st, w)

/-- The widget loop of `fill_permit`, over the document's widgets
flattened in page order then on-page discovery order. -/
def fillRun (sel : List (String × Int)) (data : List (String × PyVal)) :
    FillState → List Widget → FillState × List Widget
  | st, [] => (st, [])
  | st, w :: rest =>
      let p := fillStep sel data st w
      let q := fillRun sel data p.1 rest
      (q.1, p.2 :: q.2)

/-- `fill_permit` on a widget list: runs the loop from the initial state. -/
def fillPermit (sel : List (String × Int)) (data : List (String × PyVal))
    (ws : List Widget) : FillState × List Widget :=
  fillRun sel data initFill ws

/-- Radio widgets belonging to group `g`. -/
def memb (g : String) (w : Widget) : Bool := w.ftype == 5 && w.name == g

/-- The per-group occurrence counter value, `radio_seen.get(g, 0)`. -/
def seenOf (st : FillState) (g : String) : Nat := (dlookup st.radio_seen g).getD 0

/-! ## Layout engine of `pdf_form_fill_workflow.py` (Phase 1)

Geometry constants from the module header: `PAGE_W, PAGE_H = 612, 792`,
all four margins `50`. All coordinates in `generate_blank_form` are
integer-valued, so the cursor is a `Nat`. A recorded position's `page`
field is an `Int` because `_draw_field_row` initialises it with the
sentinel `-1`. -/
/-- Page height (US Letter), `PAGE_H = 792`. -/
def PAGE_H : Nat := 792

/-- Bottom margin, `MARGIN_B = 50`. -/
def MARGIN_B : Nat := 50

/-- The cursor limit used by both overflow checks in
`generate_blank_form`: `PAGE_H - MARGIN_B - 40 = 702`. -/
def contentLimit : Nat := PAGE_H - MARGIN_B - 40

/-- A recorded field position: the dict
`{"x": ..., "y": ..., "page": ...}` written by `_draw_field_row`. -/
structure FieldPos : Type where
  x : Nat
  y : Nat
  page : Int
deriving DecidableEq, Repr

/-- A form section: title plus ordered `(key, label)` pairs, as in
`FORM_SECTIONS` (the unused `icon` entry is omitted). -/
structure Sec : Type where
  title : String
  fields : List (String × String)
deriving DecidableEq, Repr

/-- State threaded through `generate_blank_form`'s nonlocal variables:
`page_num` (1-based count of opened pages), cursor `y`, and the
`field_positions` dict. `rowsDrawn` counts calls to `_draw_field_row`
(each field-row drawn), instrumenting progress of the loop. -/
structure LayoutState : Type where
  pageNum : Nat
  y : Nat
  positions : List (String × FieldPos)
  rowsDrawn : Nat
deriving DecidableEq, Repr

/-- The `new_page()` closure: open a page and reset the cursor below the
page header (`y = 90`). -/
def newPage (st : LayoutState) : LayoutState :=
  { st with pageNum := st.pageNum + 1, y := 90 }

/-- `_draw_section_header`: a 24-point band, returning `y + 24 + 10`. -/
def sectionHeaderAdvance (y : Nat) : Nat := y + 24 + 10

/-- `_draw_field_row` (lines 175-199): records
`field_positions[key] = {x: MARGIN_L+180+2, y: y+14, page: -1}` — the
page index is a `-1` placeholder at this point — and returns `y + 28`. -/
def drawFieldRow (y : Nat) (key : String) (ps : List (String × FieldPos)) :
    Nat × List (String × FieldPos) :=
  (y + 28, dictSet ps key { x := 232, y := y + 14, page := -1 })

/-- The caller's patch `field_positions[field_key]["page"] = page_num - 1`
(line 251): overwrite the `page` field of the first entry for `key`. -/
def patchPage : List (String × FieldPos) → String → Int → List (String × FieldPos)
  | [], _, _ => []
  | (k', pos) :: rest, k, p =>
      if k' = k then (k', { pos with page := p }) :: rest
      else (k', pos) :: patchPage rest k p

/-- The space estimate computed before each section header (line 237):
`needed = 24 + 10 + len(section["fields"]) * 28 + 20`. -/
def sectionNeeded (n : Nat) : Nat := 24 + 10 + n * 28 + 20

/-- Processing of one field inside a section (lines 244-251): break the
page if the row would cross `contentLimit` (redrawing the section header
with a continuation suffix), draw the row, then patch the page index. -/
def fieldStep (st : LayoutState) (kl : String × String) : LayoutState :=
  let st1 := if st.y + 28 > contentLimit
             then { newPage st with y := sectionHeaderAdvance 90 }
             else st
  let r := drawFieldRow st1.y kl.1 st1.positions
  { st1 with
    y := r.1,
    positions := patchPage r.2 kl.1 ((st1.pageNum : Int) - 1),
    rowsDrawn := st1.rowsDrawn + 1 }

/-- Processing of one section (lines 235-253): optional page break using
`sectionNeeded`, header band, the field loop, then the 12-point section
gap. -/
def sectionStep (st : LayoutState) (sec : Sec) : LayoutState :=
  let st1 := if st.y + sectionNeeded sec.fields.length > contentLimit
             then newPage st
             else st
  let st2 := { st1 with y := sectionHeaderAdvance st1.y }
  let st3 := sec.fields.foldl fieldStep st2
  { st3 with y := st3.y + 12 }

/-- The layout pass of `generate_blank_form` up to the end of the section
loop (the signature block and footers never touch `field_positions`). -/
def layoutSections (sections : List Sec) : LayoutState :=
  sections.foldl sectionStep (newPage ⟨0, 0, [], 0⟩)

/-- `generate_blank_form` (lines 202-302): the section loop followed by
the signature block (which may open one more page and only moves the
cursor). -/
def generate_blank_form (sections : List Sec) : LayoutState :=
  let st := layoutSections sections
  let st1 := if st.y + 100 > contentLimit then newPage st else st
  { st1 with y := st1.y + 20 + 30 }

/-- All field keys declared across the schema's sections, in order. -/
def declaredKeys : List Sec → List String
  | [] => []
  | s :: rest => s.fields.map Prod.fst ++ declaredKeys rest

/-- Total declared field count of a schema. -/
def totalFields (sections : List Sec) : Nat := (declaredKeys sections).length

/-- The concrete schema `FORM_SECTIONS` of `pdf_form_fill_workflow.py`. -/
def FORM_SECTIONS : List Sec :=
  [⟨"PERSONAL INFORMATION",
    [("first_name", "First Name"), ("middle_name", "Middle Name"),
     ("last_name", "Last Name"), ("date_of_birth", "Date of Birth"),
     ("gender", "Gender"), ("marital_status", "Marital Status"),
     ("nationality", "Nationality")]⟩,
   ⟨"CONTACT INFORMATION",
    [("email", "Email Address"), ("phone", "Phone Number"),
     ("alt_phone", "Alternate Phone"), ("street_address", "Street Address"),
     ("apt_suite", "Apt / Suite"), ("city", "City"), ("state", "State"),
     ("zip_code", "ZIP Code"), ("country", "Country")]⟩,
   ⟨"EMPLOYMENT DETAILS",
    [("employer_name", "Employer Name"), ("job_title", "Job Title"),
     ("department", "Department"), ("employee_id", "Employee ID"),
     ("start_date", "Start Date"), ("annual_salary", "Annual Salary"),
     ("work_phone", "Work Phone"), ("work_email", "Work Email")]⟩,
   ⟨"EMERGENCY CONTACT",
    [("emergency_name", "Full Name"), ("emergency_relationship", "Relationship"),
     ("emergency_phone", "Phone"), ("emergency_email", "Email")]⟩,
   ⟨"GOVERNMENT IDENTIFICATION",
    [("ssn", "Social Security Number"), ("drivers_license", "Driver License #"),
     ("dl_state", "DL Issuing State"), ("passport_number", "Passport Number")]⟩]

/-! ## Overlay fill and verification (`fill_form`, Phase 3) -/
/-- Python truthiness of the values occurring in the record:
`False` and the empty string are falsy. -/
def truthy : PyVal → Bool
  | PyVal.pyBool b => b
  | PyVal.pyStr s => !(s == "")

/-- Python `str()` on the record values: `str(True) = "True"`. -/
def pyStrOf : PyVal → String
  | PyVal.pyBool true => "True"
  | PyVal.pyBool false => "False"
  | PyVal.pyStr s => s

/-- A `page.insert_text` call performed by `fill_form`: target page index
and position, and the text written. -/
structure InsOp : Type where
  page : Int
  x : Nat
  y : Nat
  text : String
deriving DecidableEq, Repr

/-- The fill loop of `fill_form` (lines 410-423): for each registry entry,
`value = person_data.get(field_key, "")`; falsy values are skipped,
truthy ones are overlaid as `str(value)` at the recorded position and
counted. Returns `(filled_count, inserted texts in order)`. -/
def fillForm (data : List (String × PyVal)) (regs : List (String × FieldPos)) :
    Nat × List InsOp :=
  regs.foldl
    (fun acc kp =>
      let v := (dlookup data kp.1).getD (PyVal.pyStr "")
      if truthy v then
        (acc.1 + 1, acc.2 ++ [⟨kp.2.page, kp.2.x, kp.2.y, pyStrOf v⟩])
      else acc)
    (0, [])

/-- The effect of `fill_form` on a single registry entry, as an optional
insert operation (used to characterise the loop). -/
def overlayOp (data : List (String × PyVal)) (kp : String × FieldPos) : Option InsOp :=
  let v := (dlookup data kp.1).getD (PyVal.pyStr "")
  if truthy v then some ⟨kp.2.page, kp.2.x, kp.2.y, pyStrOf v⟩ else none

/-- Python's `needle in hay` substring test on strings. -/
def strContains (hay needle : String) : Bool := decide (needle.data <:+: hay.data)

/-- The verification loop at the end of `fill_form` (lines 441-447): for
every record entry, test `value in all_text`; count hits, collect the
keys of misses. -/
def verifyOverlay (data : List (String × String)) (allText : String) :
    Nat × List String :=
  data.foldl
    (fun acc kv =>
      if strContains allText kv.2 then (acc.1 + 1, acc.2) else (acc.1, acc.2 ++ [kv.1]))
    (0, [])

/-! ## `verify_filled` of `fill_roofing_permit.py` -/
/-- The hardcoded `critical_keys` list of `verify_filled` (lines 316-320). -/
def critical_keys : List String :=
  ["Contractor\x27s Name", "Job Address", "Master permit", "Process number",
   "System Manufacturer", "Product Approval", "Roof System Manufacturer",
   "Deck Type", "Total SF"]

/-- The widget re-scan of `verify_filled` (lines 307-311): collect
`field_name → field_value` for widgets whose value is truthy and not in
`("", "Off")`. -/
def filledWidgetsOf (ws : List Widget) : List (String × String) :=
  ws.foldl
    (fun m w =>
      match w.value with
      | some v => if v ≠ "" ∧ v ≠ "Off" then dictSet m w.name v else m
      | none => m)
    []

/-- `verify_filled` (lines 302-330): re-read widget values, then for each
of the nine critical keys count it verified when `filled_widgets` has a
truthy value for it, else record it missing. Returns
`(verified, len(critical_keys), missing, len(filled_widgets))`. The
`project_data` argument is accepted, as in the source, and never used. -/
def verify_filled (_projectData : List (String × String)) (ws : List Widget) :
    Nat × Nat × List String × Nat :=
  let fw := filledWidgetsOf ws
  let r := critical_keys.foldl
    (fun acc k =>
      match dlookup fw k with
      | some v => if v ≠ "" then (acc.1 + 1, acc.2) else (acc.1, acc.2 ++ [k])
      | none => (acc.1, acc.2 ++ [k]))
    (0, [])
  (r.1, critical_keys.length, r.2, fw.length)

/-! ## Spec-side definitions

These definitions follow the specification's words, for comparison with
the source-derived definitions above (refinement / divergence claims). -/
/-- Spec-side variant of `_draw_field_row` following the specification's
words: the page index is "filled in at the moment the row is drawn", with
no placeholder. -/
def drawFieldRowDirect (pageNum : Nat) (y : Nat) (key : String)
    (ps : List (String × FieldPos)) : Nat × List (String × FieldPos) :=
  (y + 28, dictSet ps key { x := 232, y := y + 14, page := (pageNum : Int) - 1 })

/-- Spec-side field processing: identical to `fieldStep` but assigns the
page index directly at draw time (no `-1` placeholder, no patch). -/
def fieldStepDirect (st : LayoutState) (kl : String × String) : LayoutState :=
  let st1 := if st.y + 28 > contentLimit
             then { newPage st with y := sectionHeaderAdvance 90 }
             else st
  let r := drawFieldRowDirect st1.pageNum st1.y kl.1 st1.positions
  { st1 with
    y := r.1,
    positions := r.2,
    rowsDrawn := st1.rowsDrawn + 1 }

/-- Spec-side section processing built on `fieldStepDirect`. -/
def sectionStepDirect (st : LayoutState) (sec : Sec) : LayoutState :=
  let st1 := if st.y + sectionNeeded sec.fields.length > contentLimit
             then newPage st
             else st
  let st2 := { st1 with y := sectionHeaderAdvance st1.y }
  let st3 := sec.fields.foldl fieldStepDirect st2
  { st3 with y := st3.y + 12 }

/-- Spec-side layout pass with draw-time page assignment. -/
def generate_blank_form_direct (sections : List Sec) : LayoutState :=
  let st := sections.foldl sectionStepDirect (newPage ⟨0, 0, [], 0⟩)
  let st1 := if st.y + 100 > contentLimit then newPage st else st
  { st1 with y := st1.y + 20 + 30 }

/-- Spec-side space estimate for the pre-header overflow check, following
the specification's words: "the space it and (optimistically) its first
two rows would need" — the header band, its gap, and two rows. -/
def sectionNeededSpecTwoRows : Nat := 24 + 10 + 2 * 28

/-- Spec-side degenerate-geometry condition: "a single row's fixed height
exceeds the full usable page height". A row is 28 points tall; the usable
band for rows runs from the reset cursor (`y = 90`) down to
`contentLimit`. -/
def degenerateRowGeometry : Prop := contentLimit - 90 < 28

/-! ## Lemmas about `fill_permit` -/
/-- Whether a looked-up record value is a string (the only case in which
the text-field branch performs a write). -/
def isStrVal : Option PyVal → Bool
  | some (PyVal.pyStr _) => true
  | _ => false

/-- Expected output of the radio resolution on the members of one group,
given the group's policy entry and the occurrence counter's start value:
the member at running ordinal `c` is set to "Yes" exactly when the policy
names that ordinal. -/
def radioOutSpec (tgt : Option Int) : Nat → List Widget → List Widget
  | _, [] => []
  | c, w :: rest =>
      (if tgt = some (c : Int) then { w with value := some "Yes" } else w) ::
        radioOutSpec tgt (c + 1) rest

/-! ## The pre-header overflow check (C5) -/
def cexSectionA : Sec :=
  ⟨"A", [("a1", "A"), ("a2", "A"), ("a3", "A"), ("a4", "A"), ("a5", "A"),
         ("a6", "A"), ("a7", "A"), ("a8", "A"), ("a9", "A"), ("a10", "A")]⟩

def cexSectionB : Sec :=
  ⟨"B", [("b1", "B"), ("b2", "B"), ("b3", "B"), ("b4", "B"), ("b5", "B"),
         ("b6", "B"), ("b7", "B"), ("b8", "B"), ("b9", "B")]⟩

/-! ## Overlay fill characterisation (C9) -/
def overlayOps (data : List (String × PyVal)) (regs : List (String × FieldPos)) : List InsOp :=
  regs.filterMap (overlayOp data)

@[simp] theorem dlookup_nil {α : Type} (k : String) :
    dlookup ([] : List (String × α)) k = none := rfl

theorem dlookup_cons {α : Type} (k' k : String) (v : α) (rest : List (String × α)) :
    dlookup ((k', v) :: rest) k = if k' = k then some v else dlookup rest k := rfl

@[simp] theorem dlookup_dictSet_self {α : Type} (m : List (String × α)) (k : String) (v : α) :
    dlookup (dictSet m k v) k = some v := by
  induction m with
  | nil => simp [dictSet, dlookup]
  | cons hd tl ih =>
      obtain ⟨k', v'⟩ := hd
      by_cases h : k' = k
      · simp [dictSet, h, dlookup]
      · simp [dictSet, h, dlookup, ih]

@[simp] theorem dlookup_dictSet_ne {α : Type} (m : List (String × α)) (k' k : String) (v : α)
    (h : k' ≠ k) : dlookup (dictSet m k' v) k = dlookup m k := by
  induction m with
  | nil => simp [dictSet, dlookup, h]
  | cons hd tl ih =>
      obtain ⟨k₀, v₀⟩ := hd
      simp only [dictSet]
      by_cases h0 : k₀ = k'
      · subst h0
        simp [dlookup, h]
      · simp only [if_neg h0, dlookup, ih]

theorem keysOf_dictSet_fresh {α : Type} (m : List (String × α)) (k : String) (v : α)
    (h : ¬ k ∈ keysOf m) : dictSet m k v = m ++ [(k, v)] := by
  induction m with
  | nil => simp [dictSet]
  | cons hd tl ih =>
      obtain ⟨k₀, v₀⟩ := hd
      simp only [keysOf, List.map_cons, List.mem_cons] at h
      push_neg at h
      simp [dictSet, Ne.symm h.1, ih (by simpa [keysOf] using h.2)]

theorem fillRun_nil (sel : List (String × Int)) (data : List (String × PyVal))
    (st : FillState) : fillRun sel data st [] = (st, []) := rfl

theorem fillRun_cons (sel : List (String × Int)) (data : List (String × PyVal))
    (st : FillState) (w : Widget) (rest : List Widget) :
    fillRun sel data st (w :: rest) =
      ((fillRun sel data (fillStep sel data st w).1 rest).1,
       (fillStep sel data st w).2 :: (fillRun sel data (fillStep sel data st w).1 rest).2) := rfl

theorem fillStep_text_str (sel : List (String × Int)) (data : List (String × PyVal))
    (st : FillState) (w : Widget) (s : String)
    (h7 : w.ftype = 7) (h : dlookup data w.name = some (PyVal.pyStr s)) :
    fillStep sel data st w =
      ({ st with text_filled := st.text_filled + 1 }, { w with value := some s }) := by
  simp [fillStep, h7, h]

theorem fillStep_text_skip (sel : List (String × Int)) (data : List (String × PyVal))
    (st : FillState) (w : Widget)
    (h7 : w.ftype = 7) (h : isStrVal (dlookup data w.name) = false) :
    fillStep sel data st w =
      ({ st with skipped := st.skipped ++ ["text:" ++ w.name] }, w) := by
  rcases hv : dlookup data w.name with _ | (b | s)
  · simp [fillStep, h7, hv]
  · simp [fillStep, h7, hv]
  · rw [hv] at h
    simp [isStrVal] at h

theorem fillStep_checkbox_true (sel : List (String × Int)) (data : List (String × PyVal))
    (st : FillState) (w : Widget)
    (h2 : w.ftype = 2) (h : dlookup data w.name = some (PyVal.pyBool true)) :
    fillStep sel data st w =
      ({ st with checkboxes_checked := st.checkboxes_checked + 1 },
       { w with value := some "Yes" }) := by
  simp [fillStep, h2, h]

theorem fillStep_checkbox_other (sel : List (String × Int)) (data : List (String × PyVal))
    (st : FillState) (w : Widget)
    (h2 : w.ftype = 2) (h : dlookup data w.name ≠ some (PyVal.pyBool true)) :
    fillStep sel data st w = (st, w) := by
  simp [fillStep, h2, h]

theorem fillStep_radio_none (sel : List (String × Int)) (data : List (String × PyVal))
    (st : FillState) (w : Widget)
    (h5 : w.ftype = 5) (hsel : dlookup sel w.name = none) :
    fillStep sel data st w =
      ({ st with radio_seen := dictSet st.radio_seen w.name ((dlookup st.radio_seen w.name).getD 0 + 1) }, w) := by
  simp [fillStep, h5, hsel]

theorem fillStep_radio_hit (sel : List (String × Int)) (data : List (String × PyVal))
    (st : FillState) (w : Widget) (t : Int)
    (h5 : w.ftype = 5) (hsel : dlookup sel w.name = some t)
    (hidx : ((dlookup st.radio_seen w.name).getD 0 : Int) = t) :
    fillStep sel data st w =
      ({ st with
          radio_seen := dictSet st.radio_seen w.name ((dlookup st.radio_seen w.name).getD 0 + 1),
          radios_selected := st.radios_selected + 1 },
       { w with value := some "Yes" }) := by
  simp [fillStep, h5, hsel, hidx]

theorem fillStep_radio_miss (sel : List (String × Int)) (data : List (String × PyVal))
    (st : FillState) (w : Widget) (t : Int)
    (h5 : w.ftype = 5) (hsel : dlookup sel w.name = some t)
    (hidx : ¬(((dlookup st.radio_seen w.name).getD 0 : Int) = t)) :
    fillStep sel data st w =
      ({ st with radio_seen := dictSet st.radio_seen w.name ((dlookup st.radio_seen w.name).getD 0 + 1) }, w) := by
  simp [fillStep, h5, hsel, hidx]

theorem fillStep_other (sel : List (String × Int)) (data : List (String × PyVal))
    (st : FillState) (w : Widget)
    (h7 : w.ftype ≠ 7) (h2 : w.ftype ≠ 2) (h5 : w.ftype ≠ 5) :
    fillStep sel data st w = (st, w) := by
  simp [fillStep, h7, h2, h5]

/-- A fill step never changes a widget's name or type (only possibly its
value). -/
theorem fillStep_memb (sel : List (String × Int)) (data : List (String × PyVal))
    (st : FillState) (w : Widget) (g : String) :
    memb g (fillStep sel data st w).2 = memb g w := by
  unfold fillStep
  repeat' split
  all_goals first
    | rfl
    | simp [memb, apply_ite Prod.snd, apply_ite Widget.ftype, apply_ite Widget.name]

theorem radioOutSpec_none : ∀ (l : List Widget) (c : Nat), radioOutSpec none c l = l := by
  intro l
  induction l with
  | nil => intro c; rfl
  | cons w rest ih => intro c; simp [radioOutSpec, ih]

theorem radioOutSpec_length (tgt : Option Int) :
    ∀ (l : List Widget) (c : Nat), (radioOutSpec tgt c l).length = l.length := by
  intro l
  induction l with
  | nil => intro c; rfl
  | cons w rest ih => intro c; simp [radioOutSpec, ih]

theorem radioOutSpec_getElem (tgt : Option Int) :
    ∀ (l : List Widget) (c i : Nat),
      (radioOutSpec tgt c l)[i]? =
        (l[i]?).map (fun w =>
          if tgt = some ((c + i : Nat) : Int) then { w with value := some "Yes" } else w) := by
  intro l
  induction l with
  | nil => intro c i; simp [radioOutSpec]
  | cons w rest ih =>
      intro c i
      cases i with
      | zero => simp [radioOutSpec]
      | succ j =>
          simp only [radioOutSpec, List.getElem?_cons_succ, ih]
          have : c + 1 + j = c + (j + 1) := by omega
          rw [this]

theorem radioOutSpec_countYes (t : Int) :
    ∀ (l : List Widget) (c : Nat), (∀ w ∈ l, w.value = none) →
      (radioOutSpec (some t) c l).countP (fun w => w.value == some "Yes") =
        if (c : Int) ≤ t ∧ t < (c : Int) + l.length then 1 else 0 := by
  intro l
  induction l with
  | nil =>
      intro c _
      rw [if_neg]
      · rfl
      · rintro ⟨h1, h2⟩
        simp only [List.length_nil] at h2
        omega
  | cons w rest ih =>
      intro c hv
      have hv' : ∀ x ∈ rest, x.value = none := fun x hx => hv x (List.mem_cons_of_mem _ hx)
      have hw : w.value = none := hv w (List.mem_cons_self w rest)
      simp only [radioOutSpec, List.countP_cons, List.length_cons]
      by_cases hc : t = (c : Int)
      · rw [if_pos (show some t = some ((c : Nat) : Int) from by rw [hc])]
        rw [if_pos (show ((({ w with value := some "Yes" } : Widget).value == some "Yes") = true)
              from rfl)]
        rw [ih (c + 1) hv']
        rw [if_neg (show ¬(((c + 1 : Nat) : Int) ≤ t ∧
              t < ((c + 1 : Nat) : Int) + (rest.length : Int)) from by push_cast; omega)]
        rw [if_pos (show ((c : Nat) : Int) ≤ t ∧
              t < ((c : Nat) : Int) + ((rest.length + 1 : Nat) : Int) from by push_cast; omega)]
      · rw [if_neg (show ¬(some t = some ((c : Nat) : Int)) from by simpa using hc)]
        rw [if_neg (show ¬((w.value == some "Yes") = true) from by rw [hw]; simp)]
        rw [ih (c + 1) hv']
        rw [Nat.add_zero]
        have hiff : (((c + 1 : Nat) : Int) ≤ t ∧ t < ((c + 1 : Nat) : Int) + (rest.length : Int))
            ↔ (((c : Nat) : Int) ≤ t ∧ t < ((c : Nat) : Int) + ((rest.length + 1 : Nat) : Int)) := by
          push_cast
          constructor
          · rintro ⟨h1, h2⟩
            exact ⟨by omega, by omega⟩
          · rintro ⟨h1, h2⟩
            exact ⟨by omega, by omega⟩
        rw [if_congr hiff rfl rfl]

/-- A fill step on a widget outside group `g` leaves group `g`'s
occurrence counter unchanged. -/
theorem fillStep_seen_ne (sel : List (String × Int)) (data : List (String × PyVal))
    (st : FillState) (w : Widget) (g : String) (h : memb g w = false) :
    seenOf (fillStep sel data st w).1 g = seenOf st g := by
  by_cases h7 : w.ftype = 7
  · rcases hv : dlookup data w.name with _ | (b | s)
    · rw [fillStep_text_skip sel data st w h7 (by rw [hv]; rfl)]
      rfl
    · rw [fillStep_text_skip sel data st w h7 (by rw [hv]; rfl)]
      rfl
    · rw [fillStep_text_str sel data st w s h7 hv]
      rfl
  · by_cases h2 : w.ftype = 2
    · by_cases hv : dlookup data w.name = some (PyVal.pyBool true)
      · rw [fillStep_checkbox_true sel data st w h2 hv]
        rfl
      · rw [fillStep_checkbox_other sel data st w h2 hv]
    · by_cases h5 : w.ftype = 5
      · have hne : w.name ≠ g := by
          simpa [memb, h5] using h
        rcases hsel : dlookup sel w.name with _ | t
        · rw [fillStep_radio_none sel data st w h5 hsel]
          simp [seenOf, dlookup_dictSet_ne _ _ _ _ hne]
        · by_cases hidx : ((dlookup st.radio_seen w.name).getD 0 : Int) = t
          · rw [fillStep_radio_hit sel data st w t h5 hsel hidx]
            simp [seenOf, dlookup_dictSet_ne _ _ _ _ hne]
          · rw [fillStep_radio_miss sel data st w t h5 hsel hidx]
            simp [seenOf, dlookup_dictSet_ne _ _ _ _ hne]
      · rw [fillStep_other sel data st w h7 h2 h5]

/-- Characterisation of the radio resolution inside `fill_permit`: the
group-`g` members of the output widget list are exactly `radioOutSpec`
applied to the group-`g` members of the input, started at the current
occurrence counter, and the counter is advanced once per member. -/
theorem fillRun_radio (sel : List (String × Int)) (data : List (String × PyVal)) (g : String) :
    ∀ (ws : List Widget) (st : FillState),
      ((fillRun sel data st ws).2.filter (memb g) =
        radioOutSpec (dlookup sel g) (seenOf st g) (ws.filter (memb g)))
      ∧ seenOf (fillRun sel data st ws).1 g = seenOf st g + (ws.filter (memb g)).length := by
  intro ws
  induction ws with
  | nil =>
      intro st
      exact ⟨rfl, rfl⟩
  | cons w rest ih =>
      intro st
      rw [fillRun_cons]
      dsimp only
      by_cases hm : memb g w = true
      · obtain ⟨h5, hname⟩ : w.ftype = 5 ∧ w.name = g := by simpa [memb] using hm
        have hsg : seenOf st g = (dlookup st.radio_seen w.name).getD 0 := by
          rw [hname]
          rfl
        have hs1 : ∀ (st' : FillState), st'.radio_seen = dictSet st.radio_seen w.name ((dlookup st.radio_seen w.name).getD 0 + 1) → seenOf st' g = seenOf st g + 1 := by
          intro st' hst'
          simp [seenOf, hst', hname]
        rcases hsel : dlookup sel g with _ | t
        · rw [fillStep_radio_none sel data st w h5 (by rw [hname, hsel])]
          dsimp only
          constructor
          · rw [List.filter_cons, if_pos hm, (ih _).1, hs1 _ rfl, hsel]
            rw [List.filter_cons, if_pos hm]
            rw [radioOutSpec_none, radioOutSpec_none]
          · rw [(ih _).2, hs1 _ rfl, List.filter_cons, if_pos hm]
            simp only [List.length_cons]
            omega
        · by_cases hidx : ((dlookup st.radio_seen w.name).getD 0 : Int) = t
          · rw [fillStep_radio_hit sel data st w t h5 (by rw [hname, hsel]) hidx]
            dsimp only
            have hmemb : memb g ({ w with value := some "Yes" } : Widget) = true := by
              simp [memb, h5, hname]
            constructor
            · rw [List.filter_cons, if_pos hmemb, (ih _).1, hs1 _ rfl, hsel]
              rw [List.filter_cons, if_pos hm]
              rw [show radioOutSpec (some t) (seenOf st g) (w :: List.filter (memb g) rest) =
                    (if some t = some ((seenOf st g : Nat) : Int)
                     then { w with value := some "Yes" } else w) ::
                      radioOutSpec (some t) (seenOf st g + 1) (List.filter (memb g) rest)
                    from rfl]
              rw [if_pos (show some t = some ((seenOf st g : Nat) : Int) from by
                    rw [hsg, ← hidx])]
            · rw [(ih _).2, hs1 _ rfl, List.filter_cons, if_pos hm]
              simp only [List.length_cons]
              omega
          · rw [fillStep_radio_miss sel data st w t h5 (by rw [hname, hsel]) hidx]
            dsimp only
            constructor
            · rw [List.filter_cons, if_pos hm, (ih _).1, hs1 _ rfl, hsel]
              rw [List.filter_cons, if_pos hm]
              rw [show radioOutSpec (some t) (seenOf st g) (w :: List.filter (memb g) rest) =
                    (if some t = some ((seenOf st g : Nat) : Int)
                     then { w with value := some "Yes" } else w) ::
                      radioOutSpec (some t) (seenOf st g + 1) (List.filter (memb g) rest)
                    from rfl]
              rw [if_neg (show ¬(some t = some ((seenOf st g : Nat) : Int)) from by
                    intro hcontra
                    exact hidx (((Option.some.inj hcontra).trans (by rw [hsg])).symm))]
            · rw [(ih _).2, hs1 _ rfl, List.filter_cons, if_pos hm]
              simp only [List.length_cons]
              omega
      · have hm' : memb g w = false := by
          revert hm
          cases memb g w <;> simp
        have hseen := fillStep_seen_ne sel data st w g hm'
        have hmb := fillStep_memb sel data st w g
        constructor
        · rw [List.filter_cons, hmb, if_neg (by simp [hm']), (ih _).1, hseen]
          rw [List.filter_cons, if_neg (by simp [hm'])]
        · rw [(ih _).2, hseen, List.filter_cons, if_neg (by simp [hm'])]

/-- A fill step on a non-text widget never touches the skipped list. -/
theorem fillStep_skipped_eq (sel : List (String × Int)) (data : List (String × PyVal))
    (st : FillState) (w : Widget) (h7 : w.ftype ≠ 7) :
    (fillStep sel data st w).1.skipped = st.skipped := by
  by_cases h2 : w.ftype = 2
  · by_cases hv : dlookup data w.name = some (PyVal.pyBool true)
    · rw [fillStep_checkbox_true sel data st w h2 hv]
    · rw [fillStep_checkbox_other sel data st w h2 hv]
  · by_cases h5 : w.ftype = 5
    · rcases hsel : dlookup sel w.name with _ | t
      · rw [fillStep_radio_none sel data st w h5 hsel]
      · by_cases hidx : ((dlookup st.radio_seen w.name).getD 0 : Int) = t
        · rw [fillStep_radio_hit sel data st w t h5 hsel hidx]
        · rw [fillStep_radio_miss sel data st w t h5 hsel hidx]
    · rw [fillStep_other sel data st w h7 h2 h5]

/-- Characterisation of `fill_permit`'s skipped list: it records exactly
the text widgets whose record value is not a string, each decorated with
the "text:" prefix, in visiting order. -/
theorem fillRun_skipped (sel : List (String × Int)) (data : List (String × PyVal)) :
    ∀ (ws : List Widget) (st : FillState),
      (fillRun sel data st ws).1.skipped =
        st.skipped ++
          (ws.filter (fun w => w.ftype == 7 && !(isStrVal (dlookup data w.name)))).map
            (fun w => "text:" ++ w.name) := by
  intro ws
  induction ws with
  | nil => intro st; simp [fillRun_nil]
  | cons w rest ih =>
      intro st
      rw [fillRun_cons]
      dsimp only
      rw [ih _]
      by_cases h7 : w.ftype = 7
      · rcases hv : dlookup data w.name with _ | (b | s)
        · rw [fillStep_text_skip sel data st w h7 (by rw [hv]; rfl)]
          rw [List.filter_cons, if_pos (by simp [h7, hv, isStrVal])]
          simp
        · rw [fillStep_text_skip sel data st w h7 (by rw [hv]; rfl)]
          rw [List.filter_cons, if_pos (by simp [h7, hv, isStrVal])]
          simp
        · rw [fillStep_text_str sel data st w s h7 hv]
          rw [List.filter_cons, if_neg (by simp [h7, hv, isStrVal])]
      · rw [fillStep_skipped_eq sel data st w h7]
        rw [List.filter_cons, if_neg (by simp [h7])]

/-- C1. For every radio group processed by `fill_permit` (controls
visited in page order then discovery order, per-group counter starting at
zero and advanced once per member): with a policy target `t` for group
`g` and all group members initially unset, if `0 ≤ t < member_count` then
exactly one member — the one at ordinal `t` — ends with the selected
marker "Yes", and if `t ≥ member_count` then no member is selected. -/
theorem c1_radio_group_exactly_one (sel : List (String × Int)) (data : List (String × PyVal))
    (ws : List Widget) (g : String) (t : Int)
    (hsel : dlookup sel g = some t)
    (hvals : ∀ w ∈ ws.filter (memb g), w.value = none) :
    seenOf (fillPermit sel data ws).1 g = (ws.filter (memb g)).length
    ∧ (0 ≤ t → t < ((ws.filter (memb g)).length : Int) →
        ((fillPermit sel data ws).2.filter (memb g)).countP
            (fun w => w.value == some "Yes") = 1
        ∧ (∀ (i : Nat) (w' : Widget),
            ((fillPermit sel data ws).2.filter (memb g))[i]? = some w' →
            w'.value = if (i : Int) = t then some "Yes" else none))
    ∧ (((ws.filter (memb g)).length : Int) ≤ t →
        ((fillPermit sel data ws).2.filter (memb g)).countP
            (fun w => w.value == some "Yes") = 0) := by
  have hmain := fillRun_radio sel data g ws initFill
  have hseen0 : seenOf initFill g = 0 := rfl
  rw [hseen0, hsel] at hmain
  refine ⟨?_, ?_, ?_⟩
  · rw [show fillPermit sel data ws = fillRun sel data initFill ws from rfl, hmain.2]
    omega
  · intro ht0 htlt
    constructor
    · rw [show fillPermit sel data ws = fillRun sel data initFill ws from rfl, hmain.1]
      rw [radioOutSpec_countYes t _ 0 hvals]
      rw [if_pos (by push_cast; omega)]
    · intro i w' hw'
      rw [show fillPermit sel data ws = fillRun sel data initFill ws from rfl, hmain.1] at hw'
      rw [radioOutSpec_getElem] at hw'
      rcases hmem : (ws.filter (memb g))[i]? with _ | w0
      · rw [hmem] at hw'
        exact Option.noConfusion hw'
      · rw [hmem] at hw'
        have hw0 : w0.value = none := hvals w0 (List.getElem?_mem hmem)
        simp only [Option.map_some'] at hw'
        have hw'' := (Option.some.inj hw').symm
        rw [hw'']
        by_cases hit : some t = some ((0 + i : Nat) : Int)
        · rw [if_pos hit]
          rw [if_pos (by
                have := (Option.some.inj hit).symm
                push_cast at this
                omega)]
        · rw [if_neg hit]
          rw [if_neg (by
                intro hcontra
                exact hit (by
                  rw [show ((0 + i : Nat) : Int) = (i : Int) from by push_cast; omega]
                  rw [hcontra]))]
          exact hw0
  · intro hge
    rw [show fillPermit sel data ws = fillRun sel data initFill ws from rfl, hmain.1]
    rw [radioOutSpec_countYes t _ 0 hvals]
    rw [if_neg (by push_cast; omega)]

/-- C10. For a radio group `g` absent from the selection policy, the fill
executor leaves every member of `g` unchanged (writes nothing), still
advances the per-group occurrence counter once per member, selects zero
members, and records nothing for `g` in the skipped list. -/
theorem c10_group_absent_from_policy (sel : List (String × Int))
    (data : List (String × PyVal)) (ws : List Widget) (g : String)
    (hsel : dlookup sel g = none)
    (hg : ∀ w ∈ ws, ("text:" ++ w.name) ≠ g) :
    ((fillPermit sel data ws).2.filter (memb g) = ws.filter (memb g))
    ∧ seenOf (fillPermit sel data ws).1 g = (ws.filter (memb g)).length
    ∧ ((∀ w ∈ ws.filter (memb g), w.value = none) →
        ((fillPermit sel data ws).2.filter (memb g)).countP
            (fun w => w.value == some "Yes") = 0)
    ∧ g ∉ (fillPermit sel data ws).1.skipped := by
  have hmain := fillRun_radio sel data g ws initFill
  have hseen0 : seenOf initFill g = 0 := rfl
  rw [hseen0, hsel] at hmain
  have hfix : (fillPermit sel data ws).2.filter (memb g) = ws.filter (memb g) := by
    rw [show fillPermit sel data ws = fillRun sel data initFill ws from rfl, hmain.1]
    rw [radioOutSpec_none]
  refine ⟨hfix, ?_, ?_, ?_⟩
  · rw [show fillPermit sel data ws = fillRun sel data initFill ws from rfl, hmain.2]
    omega
  · intro hv
    rw [hfix]
    rw [List.countP_eq_zero]
    intro w hw
    rw [hv w hw]
    simp
  · rw [show (fillPermit sel data ws).1 = (fillRun sel data initFill ws).1 from rfl]
    rw [fillRun_skipped]
    intro hmem
    rw [show initFill.skipped = ([] : List String) from rfl] at hmem
    rw [List.nil_append] at hmem
    rw [List.mem_map] at hmem
    obtain ⟨w, hwmem, hfw⟩ := hmem
    exact hg w (List.mem_of_mem_filter hwmem) hfw

/-- Witness for C1: a three-member group with target ordinal 1 gets
exactly one selection. -/
theorem c1_radio_group_exactly_one_witness :
    ((fillPermit [("G", (1 : Int))] []
        [⟨"G", 5, none⟩, ⟨"G", 5, none⟩, ⟨"G", 5, none⟩]).2.filter
          (memb "G")).countP (fun w => w.value == some "Yes") = 1 := by
  have h := c1_radio_group_exactly_one [("G", (1 : Int))] []
      [⟨"G", 5, none⟩, ⟨"G", 5, none⟩, ⟨"G", 5, none⟩] "G" 1 (by decide) (by decide)
  exact (h.2.1 (by decide) (by decide)).1

/-- Witness for C10: a two-member group absent from the policy still
advances its counter to 2 and is not recorded as skipped. -/
theorem c10_group_absent_from_policy_witness :
    seenOf (fillPermit [] [] [⟨"G", 5, none⟩, ⟨"G", 5, none⟩]).1 "G" = 2
    ∧ "G" ∉ (fillPermit [] [] [⟨"G", 5, none⟩, ⟨"G", 5, none⟩]).1.skipped := by
  have h := c10_group_absent_from_policy [] [] [⟨"G", 5, none⟩, ⟨"G", 5, none⟩] "G"
      (by decide) (by decide)
  exact ⟨h.2.1.trans (by decide), h.2.2.2⟩

/-- C7 counterexample: a checkbox whose key is absent from the record is
left unwritten but is NOT recorded in the skipped list, and a radio
widget whose key is absent from the record IS written (its selection
comes from the policy mapping, not the record) — both contradicting the
claim that every absent key is recorded as skipped with no write. -/
theorem c7_counterexample :
    dlookup ([] : List (String × PyVal)) "cb" = none
    ∧ (fillPermit [] [] [⟨"cb", 2, none⟩]).1.skipped = []
    ∧ dlookup ([] : List (String × PyVal)) "Group6" = none
    ∧ (fillPermit RADIO_SELECTIONS [] [⟨"Group6", 5, none⟩]).2 =
        [⟨"Group6", 5, some "Yes"⟩] := by
  decide

/-- C7 (amended). In `fill_permit`: the skipped list records exactly the
text widgets whose record value is not a string (as "text:" + name);
a non-radio widget with no record entry is never written; and a checkbox
whose record entry is boolean `false` is a no-op (no write, no error, no
state change). Radios ignore the record entirely. -/
theorem c7_amended_absent_and_false (sel : List (String × Int))
    (data : List (String × PyVal)) :
    (∀ ws, (fillPermit sel data ws).1.skipped =
        (ws.filter (fun w => w.ftype == 7 && !(isStrVal (dlookup data w.name)))).map
          (fun w => "text:" ++ w.name))
    ∧ (∀ st w, dlookup data w.name = none → w.ftype ≠ 5 → (fillStep sel data st w).2 = w)
    ∧ (∀ st w, w.ftype = 2 → dlookup data w.name = some (PyVal.pyBool false) →
        fillStep sel data st w = (st, w)) := by
  refine ⟨?_, ?_, ?_⟩
  · intro ws
    rw [show fillPermit sel data ws = fillRun sel data initFill ws from rfl]
    rw [fillRun_skipped]
    rfl
  · intro st w habs h5
    by_cases h7 : w.ftype = 7
    · rw [fillStep_text_skip sel data st w h7 (by rw [habs]; rfl)]
    · by_cases h2 : w.ftype = 2
      · rw [fillStep_checkbox_other sel data st w h2 (by simp [habs])]
      · rw [fillStep_other sel data st w h7 h2 h5]
  · intro st w h2 hfalse
    exact fillStep_checkbox_other sel data st w h2 (by simp [hfalse])

/-- Witness for the amended C7 at concrete widgets. -/
theorem c7_amended_absent_and_false_witness :
    (fillPermit [] [] [⟨"Job Address", 7, none⟩]).1.skipped = ["text:Job Address"]
    ∧ (fillStep [] [] initFill ⟨"cb", 2, none⟩).2 = ⟨"cb", 2, none⟩
    ∧ fillStep [] [("cb2", PyVal.pyBool false)] initFill ⟨"cb2", 2, none⟩ =
        (initFill, ⟨"cb2", 2, none⟩) := by
  have h := c7_amended_absent_and_false [] []
  have h2 := c7_amended_absent_and_false [] [("cb2", PyVal.pyBool false)]
  refine ⟨?_, ?_, ?_⟩
  · rw [h.1 [⟨"Job Address", 7, none⟩]]
    decide
  · exact h.2.1 initFill ⟨"cb", 2, none⟩ (by decide) (by decide)
  · exact h2.2.2 initFill ⟨"cb2", 2, none⟩ (by decide) (by decide)

/-! ## Lemmas about the layout engine -/
theorem keysOf_patchPage (ps : List (String × FieldPos)) (k : String) (p : Int) :
    keysOf (patchPage ps k p) = keysOf ps := by
  induction ps with
  | nil => rfl
  | cons hd tl ih =>
      obtain ⟨k', pos⟩ := hd
      simp only [keysOf] at ih
      by_cases h : k' = k <;> simp [patchPage, h, keysOf, ih]

theorem keysOf_dictSet_fresh' {α : Type} (m : List (String × α)) (k : String) (v : α)
    (h : ¬ k ∈ keysOf m) : keysOf (dictSet m k v) = keysOf m ++ [k] := by
  rw [keysOf_dictSet_fresh m k v h]
  simp [keysOf]

theorem dlookup_patchPage_ne (ps : List (String × FieldPos)) (k' k : String) (p : Int)
    (h : k' ≠ k) : dlookup (patchPage ps k' p) k = dlookup ps k := by
  induction ps with
  | nil => rfl
  | cons hd tl ih =>
      obtain ⟨k₀, pos⟩ := hd
      by_cases h0 : k₀ = k'
      · subst h0
        simp [patchPage, dlookup, h]
      · simp [patchPage, h0, dlookup, ih]

/-- The deferred page patch applied right after `_draw_field_row`'s
insertion collapses to a single direct insertion. -/
theorem patchPage_dictSet (ps : List (String × FieldPos)) (k : String) (v : FieldPos) (p : Int) :
    patchPage (dictSet ps k v) k p = dictSet ps k { v with page := p } := by
  induction ps with
  | nil => simp [dictSet, patchPage]
  | cons hd tl ih =>
      obtain ⟨k₀, pos⟩ := hd
      by_cases h0 : k₀ = k
      · simp [dictSet, patchPage, h0]
      · simp [dictSet, patchPage, h0, ih]

/-- The positions produced by one field step: the row is drawn from the
post-break cursor and the patch immediately resolves the page index. -/
theorem fieldStep_eq (st : LayoutState) (kl : String × String) :
    fieldStep st kl =
      (if st.y + 28 > contentLimit
       then { pageNum := st.pageNum + 1, y := 124 + 28,
              positions := dictSet st.positions kl.1
                { x := 232, y := 124 + 14, page := ((st.pageNum + 1 : Nat) : Int) - 1 },
              rowsDrawn := st.rowsDrawn + 1 }
       else { pageNum := st.pageNum, y := st.y + 28,
              positions := dictSet st.positions kl.1
                { x := 232, y := st.y + 14, page := ((st.pageNum : Nat) : Int) - 1 },
              rowsDrawn := st.rowsDrawn + 1 }) := by
  unfold fieldStep drawFieldRow newPage sectionHeaderAdvance
  split
  · simp [patchPage_dictSet]
  · simp [patchPage_dictSet]

theorem keysOf_fieldStep (st : LayoutState) (kl : String × String)
    (h : ¬ kl.1 ∈ keysOf st.positions) :
    keysOf (fieldStep st kl).positions = keysOf st.positions ++ [kl.1] := by
  rw [fieldStep_eq]
  split <;> exact keysOf_dictSet_fresh' st.positions kl.1 _ h

theorem keysOf_fold_fields :
    ∀ (fields : List (String × String)) (st : LayoutState),
      (∀ k ∈ fields.map Prod.fst, ¬ k ∈ keysOf st.positions) →
      (fields.map Prod.fst).Nodup →
      keysOf ((fields.foldl fieldStep st).positions) =
        keysOf st.positions ++ fields.map Prod.fst := by
  intro fields
  induction fields with
  | nil => intro st _ _; simp
  | cons kl rest ih =>
      intro st hdisj hnodup
      have hhead : ¬ kl.1 ∈ keysOf st.positions := hdisj kl.1 (by simp)
      simp only [List.map_cons, List.nodup_cons] at hnodup
      simp only [List.foldl_cons]
      rw [ih (fieldStep st kl) ?_ hnodup.2]
      · rw [keysOf_fieldStep st kl hhead]
        simp
      · intro k' hk'
        rw [keysOf_fieldStep st kl hhead]
        simp only [List.mem_append, List.mem_singleton]
        rintro (hin | heq)
        · exact hdisj k' (by simp [hk']) hin
        · rw [heq] at hk'
          exact hnodup.1 hk'

theorem sectionStep_positions (st : LayoutState) (sec : Sec) :
    (sectionStep st sec).positions =
      ((sec.fields.foldl fieldStep
        (if st.y + sectionNeeded sec.fields.length > contentLimit
         then { newPage st with y := sectionHeaderAdvance 90 }
         else { st with y := sectionHeaderAdvance st.y })).positions) := by
  unfold sectionStep
  split <;> rfl

theorem keysOf_sectionStep (st : LayoutState) (sec : Sec)
    (hdisj : ∀ k ∈ sec.fields.map Prod.fst, ¬ k ∈ keysOf st.positions)
    (hnodup : (sec.fields.map Prod.fst).Nodup) :
    keysOf (sectionStep st sec).positions = keysOf st.positions ++ sec.fields.map Prod.fst := by
  rw [sectionStep_positions]
  split
  · exact keysOf_fold_fields sec.fields _ hdisj hnodup
  · exact keysOf_fold_fields sec.fields _ hdisj hnodup

theorem keysOf_layoutFold :
    ∀ (sections : List Sec) (st : LayoutState),
      (∀ k ∈ declaredKeys sections, ¬ k ∈ keysOf st.positions) →
      (declaredKeys sections).Nodup →
      keysOf ((sections.foldl sectionStep st).positions) =
        keysOf st.positions ++ declaredKeys sections := by
  intro sections
  induction sections with
  | nil => intro st _ _; simp [declaredKeys]
  | cons sec rest ih =>
      intro st hdisj hnodup
      simp only [declaredKeys] at hdisj hnodup
      rw [List.nodup_append] at hnodup
      simp only [List.foldl_cons]
      have hsec : keysOf (sectionStep st sec).positions =
          keysOf st.positions ++ sec.fields.map Prod.fst :=
        keysOf_sectionStep st sec
          (fun k hk => hdisj k (List.mem_append_left _ hk)) hnodup.1
      rw [ih (sectionStep st sec) ?_ hnodup.2.1]
      · rw [hsec]
        rw [List.append_assoc]
        rfl
      · intro k' hk'
        rw [hsec]
        simp only [List.mem_append]
        rintro (hin | hin)
        · exact hdisj k' (List.mem_append_right _ hk') hin
        · exact hnodup.2.2 hin hk'

theorem generate_blank_form_positions (sections : List Sec) :
    (generate_blank_form sections).positions = (layoutSections sections).positions := by
  unfold generate_blank_form
  dsimp only
  split <;> rfl

/-- C2. For schemas with pairwise distinct field keys, the registry built
by the layout pass holds exactly the declared keys, in declaration order,
so its size is the total declared field count. -/
theorem c2_registry_keys_exact (sections : List Sec)
    (h : (declaredKeys sections).Nodup) :
    keysOf (generate_blank_form sections).positions = declaredKeys sections
    ∧ (generate_blank_form sections).positions.length = totalFields sections := by
  have h1 : keysOf ((layoutSections sections)).positions = declaredKeys sections := by
    have h0 := keysOf_layoutFold sections (newPage ⟨0, 0, [], 0⟩)
      (fun k _ hk => by simp [keysOf, newPage] at hk) h
    simpa [keysOf, newPage] using h0
  constructor
  · rw [generate_blank_form_positions, h1]
  · have h2 := congrArg List.length h1
    rw [generate_blank_form_positions]
    simpa [keysOf, totalFields] using h2

/-- Witness for C2 on the repository's own schema: 32 distinct keys. -/
theorem c2_registry_keys_exact_witness :
    keysOf (generate_blank_form FORM_SECTIONS).positions = declaredKeys FORM_SECTIONS
    ∧ (generate_blank_form FORM_SECTIONS).positions.length = 32 := by
  have h := c2_registry_keys_exact FORM_SECTIONS (by decide)
  exact ⟨h.1, h.2.trans (by decide)⟩

/-! ## The y-coordinate bound (C3) -/
theorem mem_dictSet {α : Type} (m : List (String × α)) (k : String) (v : α) :
    ∀ kp ∈ dictSet m k v, kp ∈ m ∨ kp = (k, v) := by
  induction m with
  | nil =>
      intro kp hkp
      simp [dictSet] at hkp
      right
      exact hkp
  | cons hd tl ih =>
      intro kp hkp
      obtain ⟨k₀, v₀⟩ := hd
      by_cases h0 : k₀ = k
      · simp only [dictSet, if_pos h0, List.mem_cons] at hkp
        rcases hkp with h | h
        · right; exact h
        · left; exact List.mem_cons_of_mem _ h
      · simp only [dictSet, if_neg h0, List.mem_cons] at hkp
        rcases hkp with h | h
        · left; rw [h]; exact List.mem_cons_self _ _
        · rcases ih kp h with h' | h'
          · left; exact List.mem_cons_of_mem _ h'
          · right; exact h'

theorem ybounded_patchPage (ps : List (String × FieldPos)) (k : String) (p : Int)
    (h : ∀ kp ∈ ps, kp.2.y ≤ contentLimit) :
    ∀ kp ∈ patchPage ps k p, kp.2.y ≤ contentLimit := by
  induction ps with
  | nil => intro kp hkp; simp [patchPage] at hkp
  | cons hd tl ih =>
      intro kp hkp
      obtain ⟨k₀, p₀⟩ := hd
      by_cases h0 : k₀ = k
      · simp only [patchPage, if_pos h0, List.mem_cons] at hkp
        rcases hkp with h1 | h1
        · rw [h1]
          simpa using h (k₀, p₀) (List.mem_cons_self _ _)
        · exact h kp (List.mem_cons_of_mem _ h1)
      · simp only [patchPage, if_neg h0, List.mem_cons] at hkp
        rcases hkp with h1 | h1
        · rw [h1]
          exact h (k₀, p₀) (List.mem_cons_self _ _)
        · exact ih (fun kp' hkp' => h kp' (List.mem_cons_of_mem _ hkp')) kp h1

theorem ybounded_fieldStep (st : LayoutState) (kl : String × String)
    (h : ∀ kp ∈ st.positions, kp.2.y ≤ contentLimit) :
    ∀ kp ∈ (fieldStep st kl).positions, kp.2.y ≤ contentLimit := by
  rw [fieldStep_eq]
  split
  · intro kp hkp
    rcases mem_dictSet st.positions kl.1 _ kp hkp with h1 | h1
    · exact h kp h1
    · rw [h1]
      show (124 + 14 : Nat) ≤ contentLimit
      decide
  · intro kp hkp
    rcases mem_dictSet st.positions kl.1 _ kp hkp with h1 | h1
    · exact h kp h1
    · rw [h1]
      have hcl : contentLimit = 702 := rfl
      simp only [hcl] at *
      omega

theorem ybounded_fold_fields :
    ∀ (fields : List (String × String)) (st : LayoutState),
      (∀ kp ∈ st.positions, kp.2.y ≤ contentLimit) →
      ∀ kp ∈ ((fields.foldl fieldStep st).positions), kp.2.y ≤ contentLimit := by
  intro fields
  induction fields with
  | nil => intro st h; exact h
  | cons kl rest ih =>
      intro st h
      simp only [List.foldl_cons]
      exact ih (fieldStep st kl) (ybounded_fieldStep st kl h)

theorem ybounded_sectionStep (st : LayoutState) (sec : Sec)
    (h : ∀ kp ∈ st.positions, kp.2.y ≤ contentLimit) :
    ∀ kp ∈ (sectionStep st sec).positions, kp.2.y ≤ contentLimit := by
  rw [sectionStep_positions]
  split
  · exact ybounded_fold_fields sec.fields _ h
  · exact ybounded_fold_fields sec.fields _ h

theorem ybounded_layoutFold :
    ∀ (sections : List Sec) (st : LayoutState),
      (∀ kp ∈ st.positions, kp.2.y ≤ contentLimit) →
      ∀ kp ∈ ((sections.foldl sectionStep st).positions), kp.2.y ≤ contentLimit := by
  intro sections
  induction sections with
  | nil => intro st h; exact h
  | cons sec rest ih =>
      intro st h
      simp only [List.foldl_cons]
      exact ih (sectionStep st sec) (ybounded_sectionStep st sec h)

/-- C3. Every position recorded by the layout engine has a y-coordinate
within `PAGE_H - MARGIN_B - 40 = 702` (rows are only drawn when the
cursor check passes or right after a fresh page reset). -/
theorem c3_y_within_limit (sections : List Sec) :
    ∀ kp ∈ (generate_blank_form sections).positions, kp.2.y ≤ PAGE_H - MARGIN_B - 40 := by
  rw [generate_blank_form_positions]
  unfold layoutSections
  exact ybounded_layoutFold sections (newPage ⟨0, 0, [], 0⟩) (by intro kp hkp; simp [newPage] at hkp)

/-- Witness for C3 at a one-field schema. -/
theorem c3_y_within_limit_witness :
    (("k", (⟨232, 138, 0⟩ : FieldPos)) : String × FieldPos).2.y ≤ PAGE_H - MARGIN_B - 40 :=
  c3_y_within_limit [⟨"S", [("k", "K")]⟩] ("k", ⟨232, 138, 0⟩) (by decide)

/-! ## Page-index patching (C4) -/
/-- C4 counterexample: `_draw_field_row` records the page index as the
placeholder `-1` (not the index of the open page), and the caller patches
it afterward — here drawn on the first page (index 0). -/
theorem c4_counterexample :
    (drawFieldRow 124 "first_name" []).2 = [("first_name", ⟨232, 138, -1⟩)]
    ∧ ((-1 : Int) ≠ ((1 : Nat) : Int) - 1)
    ∧ (fieldStep ⟨1, 124, [], 0⟩ ("first_name", "First Name")).positions =
        [("first_name", ⟨232, 138, 0⟩)] := by
  decide

theorem fieldStep_eq_direct (st : LayoutState) (kl : String × String) :
    fieldStep st kl = fieldStepDirect st kl := by
  rw [fieldStep_eq]
  unfold fieldStepDirect drawFieldRowDirect newPage sectionHeaderAdvance
  split <;> rfl

theorem sectionStep_eq_direct (st : LayoutState) (sec : Sec) :
    sectionStep st sec = sectionStepDirect st sec := by
  unfold sectionStep sectionStepDirect
  have hf : fieldStep = fieldStepDirect :=
    funext fun a => funext fun b => fieldStep_eq_direct a b
  rw [hf]

/-- C4 (amended). The deferred `-1` placeholder is patched on the very
next line, so the whole layout pass is observationally identical to a
variant that assigns the current page index directly at draw time. -/
theorem c4_amended_patch_equals_draw_time (sections : List Sec) :
    generate_blank_form sections = generate_blank_form_direct sections := by
  unfold generate_blank_form generate_blank_form_direct layoutSections
  have hf : sectionStep = sectionStepDirect :=
    funext fun a => funext fun b => sectionStep_eq_direct a b
  rw [hf]

/-- C5 counterexample: with the cursor at 416 before section B (9
fields), the spec's "header plus first two rows" estimate (90) would NOT
trigger a break (416 + 90 ≤ 702), but the engine breaks — its estimate
covers ALL rows plus the trailing gap — so B's first field lands on page
index 1 at the fresh-page coordinate while section A ended on page 0. -/
theorem c5_counterexample :
    (layoutSections [cexSectionA]).y = 416
    ∧ ¬(416 + sectionNeededSpecTwoRows > contentLimit)
    ∧ (416 + sectionNeeded cexSectionB.fields.length > contentLimit)
    ∧ dlookup (generate_blank_form [cexSectionA, cexSectionB]).positions "a10" =
        some ⟨232, 390, 0⟩
    ∧ dlookup (generate_blank_form [cexSectionA, cexSectionB]).positions "b1" =
        some ⟨232, 138, 1⟩ := by
  decide

theorem dlookup_fold_fields_ne :
    ∀ (fields : List (String × String)) (st : LayoutState) (k : String),
      ¬ k ∈ fields.map Prod.fst →
      dlookup ((fields.foldl fieldStep st).positions) k = dlookup st.positions k := by
  intro fields
  induction fields with
  | nil => intro st k _; rfl
  | cons kl rest ih =>
      intro st k hk
      simp only [List.map_cons, List.mem_cons] at hk
      push_neg at hk
      simp only [List.foldl_cons]
      rw [ih _ k hk.2]
      rw [fieldStep_eq]
      split <;> exact dlookup_dictSet_ne _ _ _ _ (Ne.symm hk.1)

/-- C5 (amended). The engine closes the page before a section header
exactly when `y + (24 + 10 + 28*len(fields) + 20) > 702` — the estimate
covers the header, its gap, ALL of the section's rows and the section
gap, not just the first two rows. Consequently the section's first field
is recorded on a fresh page (index `pageNum`, at y = 138) exactly when
that condition holds, and in place (index `pageNum - 1`, at `y + 48`)
otherwise. -/
theorem c5_amended_break_condition (st : LayoutState) (sec : Sec)
    (k l : String) (rest : List (String × String))
    (hf : sec.fields = (k, l) :: rest)
    (hrest : ¬ k ∈ rest.map Prod.fst) :
    dlookup (sectionStep st sec).positions k =
      some (if st.y + sectionNeeded sec.fields.length > contentLimit
            then { x := 232, y := 138, page := (st.pageNum : Int) }
            else { x := 232, y := st.y + 34 + 14, page := (st.pageNum : Int) - 1 }) := by
  rw [sectionStep_positions, hf]
  by_cases hbrk : st.y + sectionNeeded ((k, l) :: rest).length > contentLimit
  · rw [if_pos hbrk, if_pos hbrk]
    rw [List.foldl_cons, dlookup_fold_fields_ne rest _ k hrest, fieldStep_eq]
    dsimp only [newPage, sectionHeaderAdvance]
    rw [if_neg (show ¬((90 + 24 + 10 : Nat) + 28 > contentLimit) from by decide)]
    rw [dlookup_dictSet_self]
    refine congrArg some ?_
    simp only [FieldPos.mk.injEq]
    refine ⟨by norm_num, by norm_num, by push_cast; ring⟩
  · rw [if_neg hbrk, if_neg hbrk]
    rw [List.foldl_cons, dlookup_fold_fields_ne rest _ k hrest, fieldStep_eq]
    dsimp only [sectionHeaderAdvance]
    rw [if_neg (show ¬(st.y + 24 + 10 + 28 > contentLimit) from by
        simp only [sectionNeeded, List.length_cons, show contentLimit = 702 from rfl] at hbrk ⊢
        omega)]
    rw [dlookup_dictSet_self]

/-- Witness for the amended C5 at a concrete state and section, both
with and without the break firing is covered by the same theorem; here
the non-breaking side (cursor 90, one-field section). -/
theorem c5_amended_break_condition_witness :
    dlookup (sectionStep ⟨1, 90, [], 0⟩ ⟨"S", [("k", "K")]⟩).positions "k" =
      some ⟨232, 90 + 34 + 14, (0 : Int)⟩ := by
  have h := c5_amended_break_condition ⟨1, 90, [], 0⟩ ⟨"S", [("k", "K")]⟩ "k" "K" []
      rfl (by decide)
  rw [h]
  decide

/-! ## Termination and absent degenerate geometry (C6) -/
theorem fieldStep_rowsDrawn (st : LayoutState) (kl : String × String) :
    (fieldStep st kl).rowsDrawn = st.rowsDrawn + 1 := by
  rw [fieldStep_eq]
  split <;> rfl

theorem fold_fields_rowsDrawn :
    ∀ (fields : List (String × String)) (st : LayoutState),
      ((fields.foldl fieldStep st).rowsDrawn) = st.rowsDrawn + fields.length := by
  intro fields
  induction fields with
  | nil => intro st; rfl
  | cons kl rest ih =>
      intro st
      simp only [List.foldl_cons, List.length_cons]
      rw [ih (fieldStep st kl), fieldStep_rowsDrawn]
      omega

theorem sectionStep_rowsDrawn (st : LayoutState) (sec : Sec) :
    (sectionStep st sec).rowsDrawn = st.rowsDrawn + sec.fields.length := by
  unfold sectionStep
  dsimp only
  split
  · rw [fold_fields_rowsDrawn]
    dsimp only [newPage]
  · rw [fold_fields_rowsDrawn]

theorem totalFields_cons (sec : Sec) (rest : List Sec) :
    totalFields (sec :: rest) = sec.fields.length + totalFields rest := by
  simp [totalFields, declaredKeys]

theorem layoutFold_rowsDrawn :
    ∀ (sections : List Sec) (st : LayoutState),
      ((sections.foldl sectionStep st).rowsDrawn) = st.rowsDrawn + totalFields sections := by
  intro sections
  induction sections with
  | nil => intro st; simp [totalFields, declaredKeys]
  | cons sec rest ih =>
      intro st
      simp only [List.foldl_cons]
      rw [ih (sectionStep st sec), sectionStep_rowsDrawn, totalFields_cons]
      omega

/-- C6. The layout pass always terminates normally, drawing each declared
field row exactly once for every schema; and under the engine's fixed
geometry the spec's degenerate configuration (a row taller than the
usable page band) cannot arise, so the conditional "degenerate implies
LayoutError" holds vacuously — indeed no `LayoutError` path exists or is
needed in the code. -/
theorem c6_terminates_each_row_once :
    (∀ sections : List Sec, (generate_blank_form sections).rowsDrawn = totalFields sections)
    ∧ ¬ degenerateRowGeometry := by
  constructor
  · intro sections
    have h1 : (generate_blank_form sections).rowsDrawn = (layoutSections sections).rowsDrawn := by
      unfold generate_blank_form
      dsimp only
      split <;> rfl
    rw [h1]
    unfold layoutSections
    rw [layoutFold_rowsDrawn]
    simp [newPage]
  · exact (by decide : ¬(contentLimit - 90 < 28))

theorem fillForm_foldl (data : List (String × PyVal)) :
    ∀ (regs : List (String × FieldPos)) (acc : Nat × List InsOp),
      regs.foldl
        (fun acc kp =>
          let v := (dlookup data kp.1).getD (PyVal.pyStr "")
          if truthy v then
            (acc.1 + 1, acc.2 ++ [⟨kp.2.page, kp.2.x, kp.2.y, pyStrOf v⟩])
          else acc)
        acc
      = (acc.1 + (overlayOps data regs).length, acc.2 ++ overlayOps data regs) := by
  intro regs
  induction regs with
  | nil => intro acc; simp [overlayOps]
  | cons kp rest ih =>
      intro acc
      simp only [List.foldl_cons, overlayOps, List.filterMap_cons]
      by_cases hv : truthy ((dlookup data kp.1).getD (PyVal.pyStr "")) = true
      · have hop : overlayOp data kp =
            some ⟨kp.2.page, kp.2.x, kp.2.y, pyStrOf ((dlookup data kp.1).getD (PyVal.pyStr ""))⟩ := by
          simp [overlayOp, hv]
        rw [hop]
        dsimp only
        rw [if_pos hv]
        rw [ih]
        simp only [Prod.mk.injEq, List.length_cons, List.append_assoc, List.singleton_append,
          overlayOps]
        exact ⟨by omega, trivial⟩
      · have hop : overlayOp data kp = none := by
          simp [overlayOp, hv]
        rw [hop]
        dsimp only
        rw [if_neg hv]
        exact ih acc

/-- C9. In the overlay fill path, the inserted texts are exactly the
registry entries with a truthy record value, stringified: a boolean
`True` entry is written as the literal text "True" at the recorded
position and counted, while `False`, the empty string, and absence all
produce no insert operation. -/
theorem c9_overlay_bool_true_writes_True :
    (∀ (data : List (String × PyVal)) (regs : List (String × FieldPos)),
        fillForm data regs = ((overlayOps data regs).length, overlayOps data regs))
    ∧ (∀ (data : List (String × PyVal)) (k : String) (p : FieldPos),
        dlookup data k = some (PyVal.pyBool true) →
        overlayOp data (k, p) = some ⟨p.page, p.x, p.y, "True"⟩)
    ∧ (∀ (data : List (String × PyVal)) (k : String) (p : FieldPos),
        (dlookup data k = none ∨ dlookup data k = some (PyVal.pyBool false) ∨
         dlookup data k = some (PyVal.pyStr "")) →
        overlayOp data (k, p) = none) := by
  refine ⟨?_, ?_, ?_⟩
  · intro data regs
    unfold fillForm
    rw [fillForm_foldl data regs (0, [])]
    simp
  · intro data k p h
    simp [overlayOp, h, truthy, pyStrOf]
  · intro data k p h
    rcases h with h | h | h <;> simp [overlayOp, h, truthy, pyStrOf]

/-- Witness for C9: a boolean-true entry yields the text "True"; a key
absent from the record yields no write. -/
theorem c9_overlay_bool_true_writes_True_witness :
    overlayOp [("agree", PyVal.pyBool true)] ("agree", ⟨232, 138, 0⟩) =
      some ⟨0, 232, 138, "True"⟩
    ∧ overlayOp [("agree", PyVal.pyBool true)] ("other", ⟨232, 166, 0⟩) = none := by
  constructor
  · exact c9_overlay_bool_true_writes_True.2.1 _ "agree" _ (by decide)
  · exact c9_overlay_bool_true_writes_True.2.2 _ "other" _ (Or.inl (by decide))

/-! ## Verification pass (C8) -/
/-- C8 counterexample: `verify_filled` counts a critical key as verified
whenever the widget holds ANY non-empty value — here "WRONG", which
differs from the record's non-empty value — so no control-value equality
against the DataRecord is checked, and the key is not reported missing. -/
theorem c8_counterexample :
    dlookup [("Contractor\x27s Name", "Atlantic Roofing Solutions, LLC")]
        "Contractor\x27s Name" = some "Atlantic Roofing Solutions, LLC"
    ∧ ("Atlantic Roofing Solutions, LLC" : String) ≠ "WRONG"
    ∧ (verify_filled [("Contractor\x27s Name", "Atlantic Roofing Solutions, LLC")]
        [⟨"Contractor\x27s Name", 7, some "WRONG"⟩]).1 = 1
    ∧ "Contractor\x27s Name" ∉
        (verify_filled [("Contractor\x27s Name", "Atlantic Roofing Solutions, LLC")]
          [⟨"Contractor\x27s Name", 7, some "WRONG"⟩]).2.2.1 := by
  decide

theorem critical_fold_partition (fw : List (String × String)) :
    ∀ (keys : List String) (acc : Nat × List String),
      ((keys.foldl
          (fun acc k =>
            match dlookup fw k with
            | some v => if v ≠ "" then (acc.1 + 1, acc.2) else (acc.1, acc.2 ++ [k])
            | none => (acc.1, acc.2 ++ [k]))
          acc).1)
      + ((keys.foldl
          (fun acc k =>
            match dlookup fw k with
            | some v => if v ≠ "" then (acc.1 + 1, acc.2) else (acc.1, acc.2 ++ [k])
            | none => (acc.1, acc.2 ++ [k]))
          acc).2.length)
      = acc.1 + acc.2.length + keys.length := by
  intro keys
  induction keys with
  | nil => intro acc; simp
  | cons k rest ih =>
      intro acc
      simp only [List.foldl_cons, List.length_cons]
      rcases hv : dlookup fw k with _ | v
      · dsimp only
        rw [ih]
        simp
        omega
      · dsimp only
        by_cases hne : v ≠ ""
        · rw [if_pos hne, ih]
          dsimp only
          omega
        · rw [if_neg hne, ih]
          simp
          omega

theorem countP_filter_complement {α : Type} (p : α → Bool) :
    ∀ l : List α, l.countP p + (l.filter (fun a => !(p a))).length = l.length := by
  intro l
  induction l with
  | nil => rfl
  | cons a rest ih =>
      by_cases h : p a = true
      · simp [List.countP_cons, List.filter_cons, h]
        omega
      · have h' : p a = false := by
          revert h
          cases p a <;> simp
        simp [List.countP_cons, List.filter_cons, h']
        omega

theorem verifyOverlay_foldl (allText : String) :
    ∀ (data : List (String × String)) (acc : Nat × List String),
      data.foldl
        (fun acc kv =>
          if strContains allText kv.2 then (acc.1 + 1, acc.2) else (acc.1, acc.2 ++ [kv.1]))
        acc
      = (acc.1 + data.countP (fun kv => strContains allText kv.2),
         acc.2 ++ (data.filter (fun kv => !(strContains allText kv.2))).map Prod.fst) := by
  intro data
  induction data with
  | nil => intro acc; simp
  | cons kv rest ih =>
      intro acc
      simp only [List.foldl_cons, List.countP_cons, List.filter_cons]
      by_cases hv : strContains allText kv.2 = true
      · rw [if_pos hv, ih]
        simp [hv]
        omega
      · rw [if_neg hv, ih]
        have hv' : strContains allText kv.2 = false := by
          revert hv
          cases strContains allText kv.2 <;> simp
        simp [hv']

/-- C8 (amended). The control-path verification (`verify_filled`) never
reads the DataRecord at all — its result is identical for any two
records — and it examines only the nine hardcoded critical keys, counting
a key verified when the re-read widget map holds a non-empty value for it
and missing otherwise (verified + missing = 9). The overlay-path
verification checks every record entry (empty values vacuously pass) by
substring over the extracted text, reporting misses by key; both are
total functions that return a report rather than aborting. -/
theorem c8_amended_verification :
    (∀ (d d' : List (String × String)) (ws : List Widget),
        verify_filled d ws = verify_filled d' ws)
    ∧ (∀ (d : List (String × String)) (ws : List Widget),
        (verify_filled d ws).2.1 = critical_keys.length
        ∧ (verify_filled d ws).1 + (verify_filled d ws).2.2.1.length = critical_keys.length)
    ∧ (∀ (data : List (String × String)) (allText : String),
        (verifyOverlay data allText).1 = data.countP (fun kv => strContains allText kv.2)
        ∧ (verifyOverlay data allText).2 =
            (data.filter (fun kv => !(strContains allText kv.2))).map Prod.fst
        ∧ (verifyOverlay data allText).1 + (verifyOverlay data allText).2.length
            = data.length) := by
  refine ⟨fun _ _ _ => rfl, ?_, ?_⟩
  · intro d ws
    refine ⟨rfl, ?_⟩
    unfold verify_filled
    dsimp only
    rw [critical_fold_partition (filledWidgetsOf ws) critical_keys (0, [])]
    rfl
  · intro data allText
    have h := verifyOverlay_foldl allText data (0, [])
    unfold verifyOverlay
    rw [h]
    refine ⟨by simp, by simp, ?_⟩
    simp only [Nat.zero_add, List.nil_append]
    rw [List.length_map]
    exact countP_filter_complement _ data

end PdfFormFill
